import Mathlib

/-!
Verification of the platform filesystem / worker-lifecycle layer
(platform/platform.cpp): a shallow embedding of its operations and proofs
of the specified properties.

The OS shim primitives that platform.cpp calls but does not define
(GetFileType, GetFilesByRegExp, DeleteFileX, RmDir, IsFileExistsByFullPath,
AddSlashIfNeeded, JoinFoldersToPath, JoinPath, the errno codes and the
EFileType bitmask values from the header) are modelled from the spec, as
noted on each such definition.  Everything else is translated directly
from platform.cpp.
-/

/-- Portable error kinds, Platform::EError from the header. -/
inductive EError where
  | ERR_OK
  | ERR_FILE_DOES_NOT_EXIST
  | ERR_ACCESS_FAILED
  | ERR_DIRECTORY_NOT_EMPTY
  | ERR_FILE_ALREADY_EXISTS
  | ERR_NAME_TOO_LONG
  | ERR_NOT_A_DIRECTORY
  | ERR_SYMLINK_LOOP
  | ERR_IO_ERROR
  | ERR_UNKNOWN
deriving DecidableEq

/-- Modelled from the spec: the OS error code ENOENT (value from the OS headers). -/
def ENOENT : Int := 2

/-- Modelled from the spec: the OS error code EACCES. -/
def EACCES : Int := 13

/-- Modelled from the spec: the OS error code ENOTEMPTY. -/
def ENOTEMPTY : Int := 39

/-- Modelled from the spec: the OS error code EEXIST. -/
def EEXIST : Int := 17

/-- Modelled from the spec: the OS error code ENAMETOOLONG. -/
def ENAMETOOLONG : Int := 36

/-- Modelled from the spec: the OS error code ENOTDIR. -/
def ENOTDIR : Int := 20

/-- Modelled from the spec: the OS error code ELOOP. -/
def ELOOP : Int := 40

/-- Modelled from the spec: the OS error code EIO. -/
def errnoEIO : Int := 5

/-- Platform::ErrnoToError, translated from the switch on errno in
platform.cpp.  The thread-local errno value is passed explicitly. -/
def ErrnoToError (errno : Int) : EError :=
  if errno = ENOENT then .ERR_FILE_DOES_NOT_EXIST
  else if errno = EACCES then .ERR_ACCESS_FAILED
  else if errno = ENOTEMPTY then .ERR_DIRECTORY_NOT_EMPTY
  else if errno = EEXIST then .ERR_FILE_ALREADY_EXISTS
  else if errno = ENAMETOOLONG then .ERR_NAME_TOO_LONG
  else if errno = ENOTDIR then .ERR_NOT_A_DIRECTORY
  else if errno = ELOOP then .ERR_SYMLINK_LOOP
  else if errno = errnoEIO then .ERR_IO_ERROR
  else .ERR_UNKNOWN

/-- Platform::EFileType from the header (bitmask values modelled from the
spec: FILE_TYPE_UNKNOWN = 0x1, FILE_TYPE_REGULAR = 0x2,
FILE_TYPE_DIRECTORY = 0x4). -/
inductive EFileType where
  | FILE_TYPE_UNKNOWN
  | FILE_TYPE_REGULAR
  | FILE_TYPE_DIRECTORY
deriving DecidableEq

/-- The bitmask value of an EFileType, from the header enum values. -/
def EFileType.mask : EFileType → Nat
  | .FILE_TYPE_UNKNOWN => 1
  | .FILE_TYPE_REGULAR => 2
  | .FILE_TYPE_DIRECTORY => 4

/-- Platform::IsDirectory from platform.cpp, over an abstract GetFileType
query.  GetFileType either fails (none; any EError other than ERR_OK) or
returns the file type; on failure IsDirectory returns false. -/
def IsDirectory (getFileType : String → Option EFileType) (path : String) : Bool :=
  match getFileType path with
  | none => false
  | some t => t == .FILE_TYPE_DIRECTORY

/-- IsSpecialDirName from the anonymous namespace of platform.cpp. -/
def IsSpecialDirName (dirName : String) : Bool :=
  dirName == "." || dirName == ".."

/-- Whether a path already ends in the path separator. -/
def endsWithSlash (s : String) : Bool :=
  s.data.getLast? == some '/'

/-- Modelled from the spec: my::AddSlashIfNeeded appends the path
separator to a path unless the path already ends with it. -/
def AddSlashIfNeeded (path : String) : String :=
  if endsWithSlash path then path else path ++ "/"

/-- Modelled from the spec: my::JoinFoldersToPath composes a folder and an
entry name into a path, inserting the separator when needed. -/
def JoinFoldersToPath (folder file : String) : String :=
  AddSlashIfNeeded folder ++ file

/-- Modelled from the spec: my::JoinPath, same composition as
JoinFoldersToPath. -/
def JoinPath (folder file : String) : String :=
  AddSlashIfNeeded folder ++ file

/-- The three configured root directories of the platform object
(m_writableDir, m_resourcesDir, m_settingsDir). -/
structure PlatformDirs where
  m_writableDir : String
  m_resourcesDir : String
  m_settingsDir : String
deriving DecidableEq

/-- Platform::SetSettingsDir from platform.cpp. -/
def SetSettingsDir (st : PlatformDirs) (path : String) : PlatformDirs :=
  { st with m_settingsDir := AddSlashIfNeeded path }

/-- Platform::SetWritableDirForTests from platform.cpp. -/
def SetWritableDirForTests (st : PlatformDirs) (path : String) : PlatformDirs :=
  { st with m_writableDir := AddSlashIfNeeded path }

/-- Platform::SetResourceDir from platform.cpp. -/
def SetResourceDir (st : PlatformDirs) (path : String) : PlatformDirs :=
  { st with m_resourcesDir := AddSlashIfNeeded path }

/-- Whether each of the three worker-thread handles (m_networkThread,
m_fileThread, m_backgroundThread) currently holds a live worker. -/
structure ThreadState where
  m_networkThread : Bool
  m_fileThread : Bool
  m_backgroundThread : Bool
deriving DecidableEq

/-- Platform::RunThreads from platform.cpp.  The ASSERT that no worker
exists is modelled as returning none (fatal assertion) when it fails;
otherwise all three workers are created. -/
def RunThreads (s : ThreadState) : Option ThreadState :=
  if !s.m_networkThread && !s.m_fileThread && !s.m_backgroundThread then
    some { m_networkThread := true, m_fileThread := true, m_backgroundThread := true }
  else
    none

/-- Platform::ShutdownThreads from platform.cpp.  The ASSERT that all
three workers exist is modelled as returning none (fatal assertion) when
it fails; otherwise all three are joined and released. -/
def ShutdownThreads (s : ThreadState) : Option ThreadState :=
  if s.m_networkThread && s.m_fileThread && s.m_backgroundThread then
    some { m_networkThread := false, m_fileThread := false, m_backgroundThread := false }
  else
    none

/-- Claim C7: ErrnoToError maps each of the eight listed OS error codes to
its documented error kind and every other code to ERR_UNKNOWN; it is a
total function of the error code with no side effects. -/
theorem errnoToError_total_mapping :
    ErrnoToError ENOENT = .ERR_FILE_DOES_NOT_EXIST ∧
    ErrnoToError EACCES = .ERR_ACCESS_FAILED ∧
    ErrnoToError ENOTEMPTY = .ERR_DIRECTORY_NOT_EMPTY ∧
    ErrnoToError EEXIST = .ERR_FILE_ALREADY_EXISTS ∧
    ErrnoToError ENAMETOOLONG = .ERR_NAME_TOO_LONG ∧
    ErrnoToError ENOTDIR = .ERR_NOT_A_DIRECTORY ∧
    ErrnoToError ELOOP = .ERR_SYMLINK_LOOP ∧
    ErrnoToError errnoEIO = .ERR_IO_ERROR ∧
    ∀ e : Int,
      e ≠ ENOENT → e ≠ EACCES → e ≠ ENOTEMPTY → e ≠ EEXIST →
      e ≠ ENAMETOOLONG → e ≠ ENOTDIR → e ≠ ELOOP → e ≠ errnoEIO →
      ErrnoToError e = .ERR_UNKNOWN := by
  refine ⟨by decide, by decide, by decide, by decide, by decide, by decide,
    by decide, by decide, ?_⟩
  intro e h1 h2 h3 h4 h5 h6 h7 h8
  simp only [ErrnoToError, if_neg h1, if_neg h2, if_neg h3, if_neg h4,
    if_neg h5, if_neg h6, if_neg h7, if_neg h8]

/-- Witness for claim C7: the unmapped code 0 maps to ERR_UNKNOWN. -/
theorem errnoToError_total_mapping_witness :
    ErrnoToError 0 = .ERR_UNKNOWN :=
  errnoToError_total_mapping.2.2.2.2.2.2.2.2 0
    (by decide) (by decide) (by decide) (by decide)
    (by decide) (by decide) (by decide) (by decide)

/-- Claim C5: IsDirectory returns true exactly when the type query
succeeds and reports a directory; it returns false both when the query
fails and when the path is some other kind of file, and those two cases
are indistinguishable in the return value. -/
theorem isDirectory_false_on_failure_and_nondir :
    (∀ (q : String → Option EFileType) (path : String),
      IsDirectory q path = true ↔ q path = some .FILE_TYPE_DIRECTORY) ∧
    (∀ (q : String → Option EFileType) (path : String),
      q path = none → IsDirectory q path = false) ∧
    (∀ (q : String → Option EFileType) (path : String) (t : EFileType),
      q path = some t → t ≠ .FILE_TYPE_DIRECTORY → IsDirectory q path = false) := by
  refine ⟨fun q path => ?_, fun q path h => ?_, fun q path t h ht => ?_⟩
  · unfold IsDirectory
    cases hq : q path with
    | none => simp
    | some t => cases t <;> simp
  · unfold IsDirectory
    rw [h]
  · unfold IsDirectory
    rw [h]
    cases t with
    | FILE_TYPE_DIRECTORY => exact absurd rfl ht
    | FILE_TYPE_UNKNOWN => rfl
    | FILE_TYPE_REGULAR => rfl

/-- Witness for claim C5: a query that fails on the given path, and a
query that reports a regular file, both make IsDirectory return false; a
query that reports a directory makes it return true. -/
theorem isDirectory_false_on_failure_and_nondir_witness :
    IsDirectory (fun _ => none) "p" = false ∧
    IsDirectory (fun _ => some .FILE_TYPE_REGULAR) "p" = false ∧
    IsDirectory (fun _ => some .FILE_TYPE_DIRECTORY) "p" = true :=
  ⟨isDirectory_false_on_failure_and_nondir.2.1 (fun _ => none) "p" rfl,
   isDirectory_false_on_failure_and_nondir.2.2 (fun _ => some .FILE_TYPE_REGULAR) "p"
     .FILE_TYPE_REGULAR rfl (by decide),
   (isDirectory_false_on_failure_and_nondir.1 (fun _ => some .FILE_TYPE_DIRECTORY) "p").mpr rfl⟩

/-- Claim C9: worker lifecycle misuse is a fatal assertion.  RunThreads
succeeds exactly when no worker handle exists and then all three exist;
ShutdownThreads succeeds exactly when all three exist and then none do; a
second RunThreads after a successful one fails the assertion, as does
ShutdownThreads after a successful ShutdownThreads or without any prior
RunThreads. -/
theorem threads_lifecycle_assertions :
    (∀ s : ThreadState, (RunThreads s).isSome ↔
      s.m_networkThread = false ∧ s.m_fileThread = false ∧ s.m_backgroundThread = false) ∧
    (∀ s t : ThreadState, RunThreads s = some t →
      t.m_networkThread = true ∧ t.m_fileThread = true ∧ t.m_backgroundThread = true) ∧
    (∀ s : ThreadState, (ShutdownThreads s).isSome ↔
      s.m_networkThread = true ∧ s.m_fileThread = true ∧ s.m_backgroundThread = true) ∧
    (∀ s t : ThreadState, ShutdownThreads s = some t →
      t.m_networkThread = false ∧ t.m_fileThread = false ∧ t.m_backgroundThread = false) ∧
    (∀ s t : ThreadState, RunThreads s = some t → RunThreads t = none) ∧
    (∀ s t : ThreadState, ShutdownThreads s = some t → ShutdownThreads t = none) := by
  refine ⟨fun s => ?_, fun s t h => ?_, fun s => ?_, fun s t h => ?_,
    fun s t h => ?_, fun s t h => ?_⟩ <;>
    obtain ⟨a, b, c⟩ := s <;> cases a <;> cases b <;> cases c <;>
    simp_all [RunThreads, ShutdownThreads] <;>
    (try subst h) <;> simp [RunThreads, ShutdownThreads]

/-- Witness for claim C9: from the initial state with no workers,
RunThreads succeeds and yields all three workers, a second RunThreads is a
fatal assertion, and ShutdownThreads without a prior RunThreads is a fatal
assertion. -/
theorem threads_lifecycle_assertions_witness :
    RunThreads ⟨true, true, true⟩ = none ∧
    ShutdownThreads ⟨true, true, true⟩ = some ⟨false, false, false⟩ ∧
    ShutdownThreads ⟨false, false, false⟩ = none :=
  ⟨threads_lifecycle_assertions.2.2.2.2.1 ⟨false, false, false⟩ ⟨true, true, true⟩ (by decide),
   by decide,
   by decide⟩

theorem addSlash_endsWithSlash (p : String) :
    endsWithSlash (AddSlashIfNeeded p) = true := by
  unfold AddSlashIfNeeded
  by_cases h : endsWithSlash p = true
  · rw [if_pos h]; exact h
  · rw [if_neg h]
    unfold endsWithSlash
    rw [String.data_append]
    simp [String.data]

/-- Claim C10: each root-directory setter stores the given path with a
trailing separator appended exactly when one is not already present, so
every configured root directory string ends in the separator. -/
theorem setters_append_trailing_slash :
    (∀ (st : PlatformDirs) (p : String),
      (SetSettingsDir st p).m_settingsDir = AddSlashIfNeeded p ∧
      (SetWritableDirForTests st p).m_writableDir = AddSlashIfNeeded p ∧
      (SetResourceDir st p).m_resourcesDir = AddSlashIfNeeded p) ∧
    (∀ p : String, endsWithSlash (AddSlashIfNeeded p) = true) ∧
    (∀ p : String, endsWithSlash p = true → AddSlashIfNeeded p = p) ∧
    (∀ p : String, endsWithSlash p = false → AddSlashIfNeeded p = p ++ "/") := by
  refine ⟨fun st p => ⟨rfl, rfl, rfl⟩, fun p => ?_, fun p h => ?_, fun p h => ?_⟩
  · exact addSlash_endsWithSlash p
  · unfold AddSlashIfNeeded
    rw [if_pos h]
  · unfold AddSlashIfNeeded
    rw [if_neg (by simp [h])]

/-- Witness for claim C10: setting the settings root to a path without a
trailing separator stores the path with the separator appended, and the
stored value ends with the separator. -/
theorem setters_append_trailing_slash_witness :
    (SetSettingsDir ⟨"w", "r", "s"⟩ "abc").m_settingsDir = AddSlashIfNeeded "abc" ∧
    endsWithSlash (AddSlashIfNeeded "abc") = true ∧
    AddSlashIfNeeded "abc" = "abc" ++ "/" :=
  ⟨(setters_append_trailing_slash.1 ⟨"w", "r", "s"⟩ "abc").1,
   setters_append_trailing_slash.2.1 "abc",
   setters_append_trailing_slash.2.2.2 "abc" (by decide)⟩

/-- The outcome of Platform::ReadPathForFile: a found path, a thrown
FileAbsentException carrying its diagnostic, or process termination by the
failed CHECK on an unsupported scope character. -/
inductive PathResult where
  | found (path : String)
  | absent (diagnostic : String)
  | fatalCheck (searchScope : String)
deriving DecidableEq

/-- The candidate full path for one scope character, from the switch in
Platform::ReadPathForFile; none models the default branch (failed CHECK). -/
def scopeCandidate (st : PlatformDirs) (file : String) (c : Char) : Option String :=
  if c = 'w' then some (st.m_writableDir ++ file)
  else if c = 'r' then some (st.m_resourcesDir ++ file)
  else if c = 's' then some (st.m_settingsDir ++ file)
  else if c = 'f' then some file
  else none

/-- The possiblePaths diagnostic string built by Platform::ReadPathForFile
for the FileAbsentException. -/
def possiblePaths (st : PlatformDirs) : String :=
  st.m_writableDir ++ "\n" ++ st.m_resourcesDir ++ "\n" ++ st.m_settingsDir

/-- The loop of Platform::ReadPathForFile over the characters of the
effective search scope.  fsExists models IsFileExistsByFullPath. -/
def readPathLoop (st : PlatformDirs) (fsExists : String → Bool) (file scope : String) :
    List Char → PathResult
  | [] => .absent (possiblePaths st)
  | c :: rest =>
    match scopeCandidate st file c with
    | none => .fatalCheck scope
    | some fullPath =>
      if fsExists fullPath then .found fullPath
      else readPathLoop st fsExists file scope rest

/-- The effective search scope of Platform::ReadPathForFile: an empty
specifier defaults to wrf. -/
def effectiveScope (searchScope : String) : String :=
  if searchScope.isEmpty then "wrf" else searchScope

/-- Platform::ReadPathForFile from platform.cpp. -/
def ReadPathForFile (st : PlatformDirs) (fsExists : String → Bool)
    (file searchScope : String) : PathResult :=
  readPathLoop st fsExists file (effectiveScope searchScope)
    (effectiveScope searchScope).data

/-- The scope characters recognized by the switch in
Platform::ReadPathForFile. -/
def isScopeChar (c : Char) : Bool :=
  c == 'w' || c == 'r' || c == 's' || c == 'f'

/-- The candidate paths of a list of scope characters, in specifier
order. -/
def candidates (st : PlatformDirs) (file : String) (cs : List Char) : List String :=
  cs.filterMap (scopeCandidate st file)

theorem scopeCandidate_of_not_scopeChar (st : PlatformDirs) (file : String) (c : Char)
    (h : isScopeChar c = false) : scopeCandidate st file c = none := by
  unfold isScopeChar at h
  simp only [Bool.or_eq_false_iff, beq_eq_false_iff_ne, ne_eq] at h
  obtain ⟨⟨⟨hw, hr⟩, hs⟩, hf⟩ := h
  unfold scopeCandidate
  rw [if_neg hw, if_neg hr, if_neg hs, if_neg hf]

theorem scopeCandidate_isSome (st : PlatformDirs) (file : String) (c : Char)
    (h : isScopeChar c = true) : ∃ p, scopeCandidate st file c = some p := by
  unfold isScopeChar at h
  simp only [Bool.or_eq_true, beq_iff_eq] at h
  unfold scopeCandidate
  rcases h with ((h | h) | h) | h <;> subst h <;> simp

theorem readPathLoop_all_valid (st : PlatformDirs) (fsExists : String → Bool)
    (file scope : String) (cs : List Char) (h : ∀ c ∈ cs, isScopeChar c = true) :
    readPathLoop st fsExists file scope cs =
      match (candidates st file cs).find? fsExists with
      | some p => .found p
      | none => .absent (possiblePaths st) := by
  induction cs with
  | nil => rfl
  | cons c rest ih =>
    obtain ⟨p, hp⟩ := scopeCandidate_isSome st file c (h c (List.mem_cons_self c rest))
    have hrest := ih (fun d hd => h d (List.mem_cons_of_mem c hd))
    unfold candidates at hrest ⊢
    rw [List.filterMap_cons_some hp]
    simp only [readPathLoop, hp, List.find?_cons]
    cases he : fsExists p with
    | true => simp
    | false => simpa using hrest

theorem readPathLoop_fatal (st : PlatformDirs) (fsExists : String → Bool)
    (file scope : String) (pre : List Char) (c : Char) (suf : List Char)
    (hc : isScopeChar c = false)
    (hpre : ∀ p ∈ candidates st file pre, fsExists p = false) :
    readPathLoop st fsExists file scope (pre ++ c :: suf) = .fatalCheck scope := by
  induction pre with
  | nil =>
    rw [List.nil_append]
    simp only [readPathLoop, scopeCandidate_of_not_scopeChar st file c hc]
  | cons d pre ih =>
    rw [List.cons_append]
    cases hd : scopeCandidate st file d with
    | none => simp only [readPathLoop, hd]
    | some p =>
      have hp : p ∈ candidates st file (d :: pre) := by
        unfold candidates
        rw [List.filterMap_cons_some hd]
        exact List.mem_cons_self p _
      have ihp := ih (fun q hq => hpre q (by
        unfold candidates at hq ⊢
        rw [List.filterMap_cons_some hd]
        exact List.mem_cons_of_mem p hq))
      simp only [readPathLoop, hd, hpre p hp, ihp]
      simp

/-- Claim C3: for any scope specifier over the recognized characters (an
empty specifier defaulting to wrf), ReadPathForFile returns the first
candidate path, taken in specifier order, that exists; when no candidate
exists it reports absence with the diagnostic carrying the writable,
resource and settings roots.  In particular under the wrf default the
writable-root candidate wins over the resource-root one. -/
theorem readPathForFile_first_existing_candidate :
    (∀ (st : PlatformDirs) (fsExists : String → Bool) (file searchScope : String),
      (∀ c ∈ (effectiveScope searchScope).data, isScopeChar c = true) →
      ReadPathForFile st fsExists file searchScope =
        match (candidates st file (effectiveScope searchScope).data).find? fsExists with
        | some p => .found p
        | none => .absent (possiblePaths st)) ∧
    (∀ (st : PlatformDirs) (fsExists : String → Bool) (file : String),
      fsExists (st.m_writableDir ++ file) = true →
      ReadPathForFile st fsExists file "" = .found (st.m_writableDir ++ file)) := by
  constructor
  · intro st fsExists file searchScope h
    exact readPathLoop_all_valid st fsExists file _ _ h
  · intro st fsExists file h
    show readPathLoop st fsExists file _ _ = _
    rw [show (effectiveScope "").data = ['w', 'r', 'f'] from rfl]
    simp only [readPathLoop,
      show scopeCandidate st file 'w' = some (st.m_writableDir ++ file) from rfl, h]
    simp

/-- Witness for claim C3: with every root configured, a file present both
in the writable root and in the resource root resolves under the default
scope to the writable-root candidate, and a file present nowhere yields
the absence diagnostic listing the three roots. -/
theorem readPathForFile_first_existing_candidate_witness :
    ReadPathForFile ⟨"w/", "r/", "s/"⟩
        (fun p => p == "w/x" || p == "r/x") "x" "" =
      (match (candidates ⟨"w/", "r/", "s/"⟩ "x" (effectiveScope "").data).find?
          (fun p => p == "w/x" || p == "r/x") with
        | some p => .found p
        | none => .absent (possiblePaths ⟨"w/", "r/", "s/"⟩)) ∧
    ReadPathForFile ⟨"w/", "r/", "s/"⟩ (fun _ => false) "x" "" =
      .absent (possiblePaths ⟨"w/", "r/", "s/"⟩) := by
  constructor
  · exact readPathForFile_first_existing_candidate.1 ⟨"w/", "r/", "s/"⟩
      (fun p => p == "w/x" || p == "r/x") "x" "" (by decide)
  · have h := readPathForFile_first_existing_candidate.1 ⟨"w/", "r/", "s/"⟩
      (fun _ => false) "x" "" (by decide)
    rw [h]
    rfl

/-- Claim C8: when every character of the effective scope specifier is
one of the recognized four, the fatal-check branch of ReadPathForFile is
unreachable; when the specifier contains an unrecognized character that
is reached before any existing candidate, the operation ends in the
failed CHECK carrying the specifier, not in a returned path or a
recoverable absence. -/
theorem readPathForFile_fatal_on_bad_scope :
    (∀ (st : PlatformDirs) (fsExists : String → Bool) (file searchScope sc : String),
      (∀ c ∈ (effectiveScope searchScope).data, isScopeChar c = true) →
      ReadPathForFile st fsExists file searchScope ≠ .fatalCheck sc) ∧
    (∀ (st : PlatformDirs) (fsExists : String → Bool) (file searchScope : String)
      (pre : List Char) (c : Char) (suf : List Char),
      (effectiveScope searchScope).data = pre ++ c :: suf →
      isScopeChar c = false →
      (∀ p ∈ candidates st file pre, fsExists p = false) →
      ReadPathForFile st fsExists file searchScope =
        .fatalCheck (effectiveScope searchScope)) := by
  constructor
  · intro st fsExists file searchScope sc h
    rw [show ReadPathForFile st fsExists file searchScope =
      readPathLoop st fsExists file (effectiveScope searchScope)
        (effectiveScope searchScope).data from rfl,
      readPathLoop_all_valid st fsExists file _ _ h]
    cases (candidates st file (effectiveScope searchScope).data).find? fsExists <;> simp
  · intro st fsExists file searchScope pre c suf hdecomp hc hpre
    show readPathLoop st fsExists file _ _ = _
    rw [hdecomp]
    exact readPathLoop_fatal st fsExists file _ pre c suf hc hpre

/-- Witness for claim C8: the all-valid scope wrf never reaches the fatal
check, while the scope wxf with no file in the writable root terminates in
the failed CHECK carrying the specifier. -/
theorem readPathForFile_fatal_on_bad_scope_witness :
    ReadPathForFile ⟨"w/", "r/", "s/"⟩ (fun _ => false) "x" "wrf" ≠
      .fatalCheck "wrf" ∧
    ReadPathForFile ⟨"w/", "r/", "s/"⟩ (fun _ => false) "x" "wxf" =
      .fatalCheck (effectiveScope "wxf") :=
  ⟨readPathForFile_fatal_on_bad_scope.1 ⟨"w/", "r/", "s/"⟩ (fun _ => false)
      "x" "wrf" "wrf" (by decide),
   readPathForFile_fatal_on_bad_scope.2 ⟨"w/", "r/", "s/"⟩ (fun _ => false)
      "x" "wxf" ['w'] 'x' ['f'] (by decide) (by decide) (by decide)⟩

/-- One atom of the regular-expression subset used by the patterns this
file builds: a literal character or the any-character dot. -/
inductive RAtom where
  | lit (c : Char)
  | anyChar
deriving DecidableEq

/-- A parsed pattern element: an atom matched once, or an atom under the
Kleene star. -/
inductive RTok where
  | once (a : RAtom)
  | star (a : RAtom)
deriving DecidableEq

/-- Modelled from the spec: the metacharacters of the ECMAScript regular
expressions interpreted by GetFilesByRegExp; an ordinary character stands
for itself, a metacharacter does not. -/
def regexMetaChars : List Char :=
  ['.', '*', '\\', '$', '^', '+', '?', '(', ')', '[', ']', '\x7b', '\x7d', '|']

/-- Splits a leading Kleene star off the remaining pattern characters. -/
def starSplit : List Char → Bool × List Char
  | [] => (false, [])
  | e :: rest => if e = '*' then (true, rest) else (false, e :: rest)

theorem starSplit_length (l : List Char) : (starSplit l).2.length ≤ l.length := by
  cases l with
  | nil => simp [starSplit]
  | cons e rest =>
    simp only [starSplit]
    split <;> simp

/-- Modelled from the spec: parser for the regular-expression subset
reachable from the patterns this file builds (literal characters, the
backslash escape, the any-character dot, the Kleene star); any other
construct is outside the model (none). -/
def parseAtoms : List Char → Option (List RTok)
  | [] => some []
  | c :: rest =>
    if c = '\\' then
      match rest with
      | [] => none
      | d :: rest2 =>
        let s := starSplit rest2
        (parseAtoms s.2).map fun ts =>
          (if s.1 then RTok.star (.lit d) else .once (.lit d)) :: ts
    else if c = '.' then
      let s := starSplit rest
      (parseAtoms s.2).map fun ts =>
        (if s.1 then RTok.star .anyChar else .once .anyChar) :: ts
    else if c ∈ regexMetaChars then none
    else
      let s := starSplit rest
      (parseAtoms s.2).map fun ts =>
        (if s.1 then RTok.star (.lit c) else .once (.lit c)) :: ts
termination_by cs => cs.length
decreasing_by
  all_goals
    exact lt_of_le_of_lt (starSplit_length _) (by simp only [List.length_cons]; omega)

/-- Strips the end-of-name anchor off a pattern. -/
def splitAnchor (cs : List Char) : List Char × Bool :=
  match cs.getLast? with
  | some '$' => (cs.dropLast, true)
  | _ => (cs, false)

/-- Modelled from the spec: parses a pattern into its body and whether it
is anchored at end-of-name. -/
def parsePattern (pattern : String) : Option (List RTok × Bool) :=
  (parseAtoms (splitAnchor pattern.data).1).map fun ts =>
    (ts, (splitAnchor pattern.data).2)

/-- Whether an atom matches one character. -/
def matchAtom : RAtom → Char → Bool
  | .lit c, x => c == x
  | .anyChar, _ => true

/-- The suffixes a starred atom can leave behind: the list itself, and
every shorter suffix reachable by consuming characters the atom
matches. -/
def starSuffixes (a : RAtom) : List Char → List (List Char)
  | [] => [[]]
  | x :: xs => (x :: xs) :: (if matchAtom a x then starSuffixes a xs else [])

/-- Whether a pattern body matches a character list in full. -/
def matchToks : List RTok → List Char → Bool
  | [], s => s.isEmpty
  | .once a :: ts, s =>
    match s with
    | [] => false
    | x :: xs => matchAtom a x && matchToks ts xs
  | .star a :: ts, s => (starSuffixes a s).any fun s2 => matchToks ts s2

/-- Whether a pattern body matches some leading part of a character
list. -/
def matchLead : List RTok → List Char → Bool
  | [], _ => true
  | .once a :: ts, s =>
    match s with
    | [] => false
    | x :: xs => matchAtom a x && matchLead ts xs
  | .star a :: ts, s => (starSuffixes a s).any fun s2 => matchLead ts s2

/-- Modelled from the spec: whether the regular expression matches the
name under search semantics (a match may start at any position; a pattern
anchored with the end-of-name anchor must then reach the end of the
name). -/
def regexSearch (pattern name : String) : Bool :=
  match parsePattern pattern with
  | none => false
  | some (body, anchored) =>
    if anchored then name.data.tails.any fun s => matchToks body s
    else name.data.tails.any fun s => matchLead body s

/-- Modelled from the spec: Platform::GetFilesByRegExp returns the
entries of the raw directory listing whose name matches the regular
expression. -/
def GetFilesByRegExp (listing : List String) (pattern : String) : List String :=
  listing.filter fun name => regexSearch pattern name

/-- Platform::GetFilesByExt from platform.cpp: the extension mask is
turned into the regular expression backslash-ext-dollar. -/
def GetFilesByExt (listing : List String) (ext : String) : List String :=
  GetFilesByRegExp listing ("\\" ++ ext ++ "$")

theorem starSplit_no_meta (l : List Char) (h : ∀ c ∈ l, c ∉ regexMetaChars) :
    starSplit l = (false, l) := by
  cases l with
  | nil => rfl
  | cons e rest =>
    have he : ¬(e = '*') := fun hx => h e (List.mem_cons_self e rest) (by rw [hx]; decide)
    simp [starSplit, he]

theorem parseAtoms_all_lit (cs : List Char) (h : ∀ c ∈ cs, c ∉ regexMetaChars) :
    parseAtoms cs = some (cs.map fun c => RTok.once (RAtom.lit c)) := by
  induction cs with
  | nil => rw [parseAtoms]; rfl
  | cons c rest ih =>
    have hc := h c (List.mem_cons_self c rest)
    have hbs : ¬(c = '\\') := fun he => hc (by rw [he]; decide)
    have hdot : ¬(c = '.') := fun he => hc (by rw [he]; decide)
    have hrest : ∀ d ∈ rest, d ∉ regexMetaChars :=
      fun d hd => h d (List.mem_cons_of_mem c hd)
    rw [parseAtoms.eq_def]
    simp only [if_neg hbs, if_neg hdot, if_neg hc, starSplit_no_meta rest hrest,
      ih hrest, Option.map_some, List.map_cons]
    simp

theorem matchToks_all_lit (l : List Char) :
    ∀ s : List Char,
      matchToks (l.map fun c => RTok.once (RAtom.lit c)) s = true ↔ s = l := by
  induction l with
  | nil =>
    intro s
    cases s <;> simp [matchToks]
  | cons c l ih =>
    intro s
    cases s with
    | nil => simp [matchToks]
    | cons x xs =>
      simp only [List.map_cons, matchToks, matchAtom, Bool.and_eq_true, beq_iff_eq,
        ih xs, List.cons.injEq]
      exact and_congr_left fun _ => eq_comm

theorem parsePattern_ext (ext : String) (t : List Char) (hdata : ext.data = '.' :: t)
    (hm : ∀ c ∈ t, c ∉ regexMetaChars) :
    parsePattern ("\\" ++ ext ++ "$") =
      some (ext.data.map fun c => RTok.once (RAtom.lit c), true) := by
  have hdat : ("\\" ++ ext ++ "$").data = ('\\' :: ext.data) ++ ['$'] := by
    rw [String.data_append, String.data_append]
    rfl
  have hsplit : splitAnchor ("\\" ++ ext ++ "$").data = ('\\' :: ext.data, true) := by
    rw [splitAnchor, hdat, List.getLast?_concat, List.dropLast_concat]
    rfl
  have hparse : parseAtoms ('\\' :: ext.data) =
      some (ext.data.map fun c => RTok.once (RAtom.lit c)) := by
    rw [hdata, parseAtoms.eq_def]
    simp only [if_pos rfl, starSplit_no_meta t hm, parseAtoms_all_lit t hm,
      Option.map_some, List.map_cons]
    simp
  rw [parsePattern, hsplit, hparse]
  rfl

/-- Claim C4 counterexample: the extension dot-a-star starts with the dot,
yet GetFilesByExt keeps the name foo-dot, which does not end in the
literal extension: only the leading dot of the extension is escaped when
the pattern is built, so the star keeps its regular-expression meaning. -/
theorem getFilesByExt_not_literal_for_meta_ext :
    GetFilesByExt ["foo."] (".a*") = ["foo."] ∧
    (".a*").data.isSuffixOf ("foo.").data = false := by
  constructor
  · have hp : parsePattern ("\\.a*$") =
        some ([RTok.once (RAtom.lit '.'), RTok.star (RAtom.lit 'a')], true) := by
      rw [parsePattern]
      rw [show splitAnchor ("\\.a*$").data = ('\\' :: '.' :: 'a' :: '*' :: [], true)
        from by rw [splitAnchor]; rfl]
      rw [parseAtoms.eq_def]
      simp only [if_pos rfl]
      rw [show starSplit ['a', '*'] = (false, ['a', '*']) from by rw [starSplit]; rfl]
      rw [parseAtoms.eq_def]
      simp only [if_neg (by decide : ¬('a' = '\\')), if_neg (by decide : ¬('a' = '.')),
        if_neg (by decide : ¬('a' ∈ regexMetaChars))]
      rw [show starSplit ['*'] = (true, []) from by rw [starSplit]; rfl]
      rw [show parseAtoms ([] : List Char) = some [] from by rw [parseAtoms]]
      rfl
    have hs : regexSearch ("\\.a*$") ("foo.") = true := by
      rw [regexSearch, hp]
      decide
    unfold GetFilesByExt GetFilesByRegExp
    simp [hs]
  · decide

/-- Claim C4 (amended): for every extension string starting with the dot
whose remaining characters are regular-expression-ordinary (no
metacharacters), GetFilesByExt keeps exactly the entry names that end in
the literal extension string anchored at end-of-name: the leading dot is
escaped and the remaining characters stand for themselves in the built
pattern. -/
theorem getFilesByExt_literal_suffix (listing : List String) (ext : String)
    (t : List Char) (hdata : ext.data = '.' :: t)
    (hm : ∀ c ∈ t, c ∉ regexMetaChars) :
    GetFilesByExt listing ext =
      listing.filter fun name => ext.data.isSuffixOf name.data := by
  unfold GetFilesByExt GetFilesByRegExp
  apply List.filter_congr
  intro name _
  rw [regexSearch, parsePattern_ext ext t hdata hm]
  simp only [eq_self_iff_true, if_true]
  rw [Bool.eq_iff_iff, List.any_eq_true, List.isSuffixOf_iff_suffix]
  constructor
  · rintro ⟨s, hs, hm2⟩
    rw [(matchToks_all_lit ext.data s).mp hm2] at hs
    exact (List.mem_tails ext.data name.data).mp hs
  · intro hsuf
    exact ⟨ext.data, (List.mem_tails ext.data name.data).mpr hsuf,
      (matchToks_all_lit ext.data ext.data).mpr rfl⟩

/-- Witness for claim C4 (amended): with the extension dot-m-w-m, the
names ending in the literal extension are kept and the names ending in
dot-m-w-m-x or x-m-w-m are not. -/
theorem getFilesByExt_literal_suffix_witness :
    GetFilesByExt ["a.mwm", "b.mwmX", "c.xmwm", "d.mwm"] (".mwm") =
      ["a.mwm", "b.mwmX", "c.xmwm", "d.mwm"].filter
        (fun name => (".mwm").data.isSuffixOf name.data) ∧
    ["a.mwm", "b.mwmX", "c.xmwm", "d.mwm"].filter
        (fun name => (".mwm").data.isSuffixOf name.data) = ["a.mwm", "d.mwm"] :=
  ⟨getFilesByExt_literal_suffix ["a.mwm", "b.mwmX", "c.xmwm", "d.mwm"] (".mwm")
      ['m', 'w', 'm'] (by decide) (by decide),
   by decide⟩

/-- A file-system subtree as seen by the traversal operations: a regular
file, an entry of some other non-directory type, an entry whose type
query fails, or a directory with its raw listed entries (which may
include the pseudo-entries dot and dot-dot).  The deletable flag of a
non-directory is the outcome DeleteFileX reports for it; the rmOk flag of
a directory is the outcome RmDir reports for it after its entries were
processed. -/
inductive Node where
  | file (deletable : Bool)
  | unknownFile (deletable : Bool)
  | broken
  | dir (entries : List (String × Node)) (rmOk : Bool)

/-- The result of GetFileType on the path of an entry, derived from the
subtree: none models any EError other than ERR_OK. -/
def fileTypeOf : Node → Option EFileType
  | .file _ => some .FILE_TYPE_REGULAR
  | .unknownFile _ => some .FILE_TYPE_UNKNOWN
  | .broken => none
  | .dir _ _ => some .FILE_TYPE_DIRECTORY

/-- The outcome my::DeleteFileX reports when deleting a non-directory
entry. -/
def deleteOk : Node → Bool
  | .file d => d
  | .unknownFile d => d
  | _ => false

/-- One file-system operation performed by RmDirRecursively, with its
outcome where it has one: the dot-star listing, a type query, a file
deletion, a directory removal. -/
inductive FsOp where
  | listDir (dir : String)
  | queryType (path : String)
  | deleteFile (path : String) (ok : Bool)
  | removeDir (path : String) (ok : Bool)
deriving DecidableEq

/-- Whether an operation of the trace succeeded.  Listings and type
queries are not deletions; a failed type query shows in the trace as the
absence of any follow-up operation on that path. -/
def FsOp.succeeded : FsOp → Bool
  | .listDir _ => true
  | .queryType _ => true
  | .deleteFile _ ok => ok
  | .removeDir _ ok => ok

/-- The operation with its outcome forgotten: which operation was
attempted, on which path. -/
def FsOp.attempt : FsOp → FsOp
  | .deleteFile p _ => .deleteFile p true
  | .removeDir p _ => .removeDir p true
  | op => op

mutual

/-- Platform::RmDirRecursively from platform.cpp, over the subtree the
directory path resolves to.  Returns the boolean result together with
the ordered trace of file-system operations performed.  On a path whose
subtree is not a directory the dot-star listing lists nothing and RmDir
fails, mirroring the OS behaviour. -/
def RmDirRecursively (dirName : String) (t : Node) : Bool × List FsOp :=
  if dirName = "" || IsSpecialDirName dirName then (false, [])
  else
    match t with
    | .dir es rmOk =>
      let r := rmDirEntries dirName es
      (r.1 && rmOk, FsOp.listDir dirName :: r.2 ++ [FsOp.removeDir dirName rmOk])
    | _ => (false, [FsOp.listDir dirName, FsOp.removeDir dirName false])

/-- The loop of Platform::RmDirRecursively over the listed entries:
entries with a failing type query are skipped, directory-typed non-pseudo
entries are removed by recursion, other entries by file deletion, and
each failure only clears the aggregate flag. -/
def rmDirEntries (dirName : String) (es : List (String × Node)) : Bool × List FsOp :=
  match es with
  | [] => (true, [])
  | (file, child) :: rest =>
    let path := JoinFoldersToPath dirName file
    let hd : Bool × List FsOp :=
      match fileTypeOf child with
      | none => (true, [FsOp.queryType path])
      | some .FILE_TYPE_DIRECTORY =>
        if IsSpecialDirName file then (true, [FsOp.queryType path])
        else
          let r := RmDirRecursively path child
          (r.1, FsOp.queryType path :: r.2)
      | some _ =>
        (deleteOk child, [FsOp.queryType path, FsOp.deleteFile path (deleteOk child)])
    let r := rmDirEntries dirName rest
    (hd.1 && r.1, hd.2 ++ r.2)

end

mutual

/-- The same subtree with every deletion outcome forced to success. -/
def allOk : Node → Node
  | .file _ => .file true
  | .unknownFile _ => .unknownFile true
  | .broken => .broken
  | .dir es _ => .dir (allOkEntries es) true

/-- allOk applied to every entry of a listing. -/
def allOkEntries : List (String × Node) → List (String × Node)
  | [] => []
  | (name, c) :: rest => (name, allOk c) :: allOkEntries rest

end

/-- Claim C6: RmDirRecursively on the empty name or a pseudo directory
name returns false at once, with an empty operation trace: nothing is
listed, queried or deleted, so the file system is untouched. -/
theorem rmDirRecursively_refuses_special (t : Node) (d : String)
    (h : d = "" ∨ d = "." ∨ d = "..") :
    RmDirRecursively d t = (false, []) := by
  rcases h with h | h | h <;> subst h <;>
    rw [RmDirRecursively.eq_def] <;> simp [IsSpecialDirName]

/-- Witness for claim C6: deleting the pseudo directory dot fails with an
empty trace. -/
theorem rmDirRecursively_refuses_special_witness :
    RmDirRecursively "." (Node.file true) = (false, []) :=
  rmDirRecursively_refuses_special (Node.file true) "." (Or.inr (Or.inl rfl))

theorem slash_mem_join (d f : String) : '/' ∈ (JoinFoldersToPath d f).data := by
  unfold JoinFoldersToPath
  rw [String.data_append]
  apply List.mem_append_left
  have h := addSlash_endsWithSlash d
  unfold endsWithSlash at h
  rw [beq_iff_eq] at h
  exact List.mem_of_mem_getLast? h

theorem join_guard_false (d f : String) :
    (decide (JoinFoldersToPath d f = "") ||
      IsSpecialDirName (JoinFoldersToPath d f)) = false := by
  have hsl := slash_mem_join d f
  rw [Bool.or_eq_false_iff]
  constructor
  · rw [decide_eq_false_iff_not]
    intro h
    rw [h] at hsl
    exact absurd hsl (by decide)
  · unfold IsSpecialDirName
    rw [Bool.or_eq_false_iff]
    constructor <;> rw [beq_eq_false_iff_ne] <;> intro h <;> rw [h] at hsl <;>
      exact absurd hsl (by decide)

/-- The processing of one listed entry by RmDirRecursively: skip on a
failed type query, recursion for a non-pseudo directory, file deletion
otherwise. -/
def rmEntryHead (dirName file : String) (child : Node) : Bool × List FsOp :=
  let path := JoinFoldersToPath dirName file
  match fileTypeOf child with
  | none => (true, [FsOp.queryType path])
  | some .FILE_TYPE_DIRECTORY =>
    if IsSpecialDirName file then (true, [FsOp.queryType path])
    else
      let r := RmDirRecursively path child
      (r.1, FsOp.queryType path :: r.2)
  | some _ =>
    (deleteOk child, [FsOp.queryType path, FsOp.deleteFile path (deleteOk child)])


theorem rmDirEntries_cons (d file : String) (child : Node)
    (rest : List (String × Node)) :
    rmDirEntries d ((file, child) :: rest) =
      ((rmEntryHead d file child).1 && (rmDirEntries d rest).1,
        (rmEntryHead d file child).2 ++ (rmDirEntries d rest).2) := by
  rw [rmDirEntries.eq_def]
  rfl

theorem rm_success_shape_aux :
    (∀ (d : String) (t : Node),
      ((decide (d = "") || IsSpecialDirName d) = false →
        ((RmDirRecursively d t).1 = true ↔
          ∀ op ∈ (RmDirRecursively d t).2, FsOp.succeeded op = true)) ∧
      ((RmDirRecursively d (allOk t)).2.map FsOp.attempt =
        (RmDirRecursively d t).2.map FsOp.attempt) ∧
      ((decide (d = "") || IsSpecialDirName d) = false →
        ∀ es rmOk, t = Node.dir es rmOk →
          (RmDirRecursively d (allOk t)).1 = true)) ∧
    (∀ (d : String) (es : List (String × Node)),
      ((rmDirEntries d es).1 = true ↔
        ∀ op ∈ (rmDirEntries d es).2, FsOp.succeeded op = true) ∧
      ((rmDirEntries d (allOkEntries es)).2.map FsOp.attempt =
        (rmDirEntries d es).2.map FsOp.attempt) ∧
      ((rmDirEntries d (allOkEntries es)).1 = true)) := by
  refine RmDirRecursively.mutual_induct _ _ ?c1 ?c2 ?c3 ?c4 ?c5
  case c1 =>
    intro t d hg
    have hfalse : ∀ {P : Prop},
        (decide (d = "") || IsSpecialDirName d) = false → P := by
      intro P hf
      rw [hf] at hg
      exact Bool.noConfusion hg
    refine ⟨fun hf => hfalse hf, ?_, fun hf => hfalse hf⟩
    simp only [RmDirRecursively.eq_def, if_pos hg]
  case c2 =>
    intro d hg es rmOk ih
    obtain ⟨ih1, ih2, ih3⟩ := ih
    have hallc : allOk (Node.dir es rmOk) = Node.dir (allOkEntries es) true := by
      rw [allOk]
    have hrun : RmDirRecursively d (Node.dir es rmOk) =
        ((rmDirEntries d es).1 && rmOk,
          FsOp.listDir d :: ((rmDirEntries d es).2 ++ [FsOp.removeDir d rmOk])) := by
      rw [RmDirRecursively.eq_def, if_neg hg]
      rfl
    have hrunOk : RmDirRecursively d (allOk (Node.dir es rmOk)) =
        ((rmDirEntries d (allOkEntries es)).1 && true,
          FsOp.listDir d :: ((rmDirEntries d (allOkEntries es)).2 ++
            [FsOp.removeDir d true])) := by
      rw [hallc, RmDirRecursively.eq_def, if_neg hg]
      rfl
    refine ⟨?_, ?_, ?_⟩
    · intro _
      rw [hrun]
      dsimp only
      rw [Bool.and_eq_true]
      constructor
      · rintro ⟨hr, hok⟩ op hop
        rcases List.mem_cons.mp hop with heq | hop
        · rw [heq]; rfl
        rcases List.mem_append.mp hop with hop | hop
        · exact ih1.mp hr op hop
        · rw [List.mem_singleton.mp hop, hok]; rfl
      · intro hall
        constructor
        · exact ih1.mpr fun op hop =>
            hall op (List.mem_cons_of_mem _ (List.mem_append_left _ hop))
        · exact hall (FsOp.removeDir d rmOk)
            (List.mem_cons_of_mem _
              (List.mem_append_right _ (List.mem_singleton.mpr rfl)))
    · rw [hrun, hrunOk]
      dsimp only
      rw [List.map_cons, List.map_cons, List.map_append, List.map_append, ih2]
      rfl
    · intro _ es2 rm2 _
      rw [hrunOk]
      dsimp only
      rw [ih3]
      rfl
  case c3 =>
    intro t d hg hnd
    have hrun : RmDirRecursively d t =
        (false, [FsOp.listDir d, FsOp.removeDir d false]) := by
      rw [RmDirRecursively.eq_def, if_neg hg]
      cases t with
      | dir es rmOk => exact (hnd es rmOk rfl).elim
      | file del => rfl
      | unknownFile del => rfl
      | broken => rfl
    have hrunOk : RmDirRecursively d (allOk t) =
        (false, [FsOp.listDir d, FsOp.removeDir d false]) := by
      cases t with
      | dir es rmOk => exact (hnd es rmOk rfl).elim
      | file del =>
        rw [show allOk (Node.file del) = Node.file true from by rw [allOk],
          RmDirRecursively.eq_def, if_neg hg]
      | unknownFile del =>
        rw [show allOk (Node.unknownFile del) = Node.unknownFile true from by
          rw [allOk], RmDirRecursively.eq_def, if_neg hg]
      | broken =>
        rw [show allOk Node.broken = Node.broken from by rw [allOk],
          RmDirRecursively.eq_def, if_neg hg]
    refine ⟨?_, ?_, ?_⟩
    · intro _
      rw [hrun]
      dsimp only
      constructor
      · intro h
        exact Bool.noConfusion h
      · intro hall
        exact hall (FsOp.removeDir d false)
          (List.mem_cons_of_mem _ (List.mem_singleton.mpr rfl))
    · rw [hrun, hrunOk]
    · intro _ es rmOk heq
      exact (hnd es rmOk heq).elim
  case c4 =>
    intro d
    refine ⟨?_, ?_, ?_⟩ <;> simp [rmDirEntries, allOkEntries]
  case c5 =>
    intro d file child rest path ih1 ih2
    obtain ⟨e1, e2, e3⟩ := ih2
    have hallcons : allOkEntries ((file, child) :: rest) =
        (file, allOk child) :: allOkEntries rest := by
      rw [allOkEntries]
    have hh : ((rmEntryHead d file (allOk child)).2.map FsOp.attempt =
          (rmEntryHead d file child).2.map FsOp.attempt) ∧
        ((rmEntryHead d file (allOk child)).1 = true) ∧
        ((rmEntryHead d file child).1 = true ↔
          ∀ op ∈ (rmEntryHead d file child).2, FsOp.succeeded op = true) := by
      obtain ⟨n1, n2, n3⟩ := ih1
      cases child with
      | broken =>
        rw [show allOk Node.broken = Node.broken from by rw [allOk]]
        refine ⟨rfl, rfl, ?_⟩
        constructor
        · intro _ op hop
          rw [List.mem_singleton.mp hop]
          rfl
        · intro _
          rfl
      | file del =>
        rw [show allOk (Node.file del) = Node.file true from by rw [allOk]]
        refine ⟨rfl, rfl, ?_⟩
        constructor
        · intro h op hop
          rcases List.mem_cons.mp hop with heq | hop
          · rw [heq]; rfl
          · rw [List.mem_singleton.mp hop]
            exact h
        · intro hall
          exact hall (FsOp.deleteFile path del)
            (List.mem_cons_of_mem _ (List.mem_singleton.mpr rfl))
      | unknownFile del =>
        rw [show allOk (Node.unknownFile del) = Node.unknownFile true from by
          rw [allOk]]
        refine ⟨rfl, rfl, ?_⟩
        constructor
        · intro h op hop
          rcases List.mem_cons.mp hop with heq | hop
          · rw [heq]; rfl
          · rw [List.mem_singleton.mp hop]
            exact h
        · intro hall
          exact hall (FsOp.deleteFile path del)
            (List.mem_cons_of_mem _ (List.mem_singleton.mpr rfl))
      | dir ces cok =>
        have hallc : allOk (Node.dir ces cok) = Node.dir (allOkEntries ces) true := by
          rw [allOk]
        by_cases hsp : IsSpecialDirName file = true
        · have hhead : ∀ (c : List (String × Node)) (k : Bool),
              rmEntryHead d file (Node.dir c k) = (true, [FsOp.queryType path]) := by
            intro c k
            unfold rmEntryHead
            dsimp only [fileTypeOf]
            rw [if_pos hsp]
          rw [hallc, hhead, hhead]
          refine ⟨rfl, rfl, ?_⟩
          constructor
          · intro _ op hop
            rw [List.mem_singleton.mp hop]
            rfl
          · intro _
            rfl
        · rw [Bool.not_eq_true] at hsp
          have hguard := join_guard_false d file
          have hhead : ∀ (c : List (String × Node)) (k : Bool),
              rmEntryHead d file (Node.dir c k) =
                ((RmDirRecursively path (Node.dir c k)).1,
                  FsOp.queryType path ::
                    (RmDirRecursively path (Node.dir c k)).2) := by
            intro c k
            unfold rmEntryHead
            dsimp only [fileTypeOf]
            rw [if_neg (by simp [hsp])]
          rw [hallc] at n2 n3
          rw [hallc, hhead, hhead]
          refine ⟨?_, ?_, ?_⟩
          · dsimp only
            rw [List.map_cons, List.map_cons, n2]
          · dsimp only
            exact n3 hguard ces cok rfl
          · dsimp only
            have hiff := n1 hguard
            constructor
            · intro hr op hop
              rcases List.mem_cons.mp hop with heq | hop
              · rw [heq]; rfl
              · exact hiff.mp hr op hop
            · intro hall
              exact hiff.mpr fun op hop => hall op (List.mem_cons_of_mem _ hop)
    refine ⟨?_, ?_, ?_⟩
    · rw [rmDirEntries_cons]
      dsimp only
      rw [Bool.and_eq_true]
      constructor
      · rintro ⟨hhd, hr⟩ op hop
        rcases List.mem_append.mp hop with hop | hop
        · exact hh.2.2.mp hhd op hop
        · exact e1.mp hr op hop
      · intro hall
        exact ⟨hh.2.2.mpr fun op hop => hall op (List.mem_append_left _ hop),
          e1.mpr fun op hop => hall op (List.mem_append_right _ hop)⟩
    · rw [hallcons, rmDirEntries_cons, rmDirEntries_cons]
      dsimp only
      rw [List.map_append, List.map_append, hh.1, e2]
    · rw [hallcons, rmDirEntries_cons]
      dsimp only
      rw [Bool.and_eq_true]
      exact ⟨hh.2.1, e3⟩

/-- Claim C1: RmDirRecursively on a non-empty, non-pseudo directory name
processes every listed entry without short-circuiting on failures: the
attempted operations (with outcomes forgotten) are exactly those of the
run on the same tree with every deletion succeeding, so one undeletable
entry does not prevent the deletion attempts on its siblings; it returns
true if and only if every operation of its trace, including the final
removal of the directory itself, succeeded; and on the fully deletable
tree it does return true. -/
theorem rmDirRecursively_partial_failure (dirName : String)
    (es : List (String × Node)) (rmOk : Bool)
    (h1 : ¬(dirName = "")) (h2 : IsSpecialDirName dirName = false) :
    ((RmDirRecursively dirName (Node.dir es rmOk)).1 = true ↔
      ∀ op ∈ (RmDirRecursively dirName (Node.dir es rmOk)).2,
        FsOp.succeeded op = true) ∧
    ((RmDirRecursively dirName (allOk (Node.dir es rmOk))).2.map FsOp.attempt =
      (RmDirRecursively dirName (Node.dir es rmOk)).2.map FsOp.attempt) ∧
    (RmDirRecursively dirName (allOk (Node.dir es rmOk))).1 = true := by
  have hg : (decide (dirName = "") || IsSpecialDirName dirName) = false := by
    rw [decide_eq_false h1, h2]
    rfl
  obtain ⟨ha, hb, hc⟩ := rm_success_shape_aux.1 dirName (Node.dir es rmOk)
  exact ⟨ha hg, hb, hc hg es rmOk rfl⟩

/-- Witness for claim C1: a directory holding a deletable file, an
undeletable file and a deletable subdirectory. -/
theorem rmDirRecursively_partial_failure_witness :
    ((RmDirRecursively "d"
        (Node.dir [("a", Node.file true), ("locked", Node.file false),
          ("sub", Node.dir [("b", Node.file true)] true)] true)).1 = true ↔
      ∀ op ∈ (RmDirRecursively "d"
        (Node.dir [("a", Node.file true), ("locked", Node.file false),
          ("sub", Node.dir [("b", Node.file true)] true)] true)).2,
        FsOp.succeeded op = true) ∧
    ((RmDirRecursively "d" (allOk
        (Node.dir [("a", Node.file true), ("locked", Node.file false),
          ("sub", Node.dir [("b", Node.file true)] true)] true))).2.map FsOp.attempt =
      (RmDirRecursively "d"
        (Node.dir [("a", Node.file true), ("locked", Node.file false),
          ("sub", Node.dir [("b", Node.file true)] true)] true)).2.map FsOp.attempt) ∧
    (RmDirRecursively "d" (allOk
        (Node.dir [("a", Node.file true), ("locked", Node.file false),
          ("sub", Node.dir [("b", Node.file true)] true)] true))).1 = true :=
  rmDirRecursively_partial_failure "d"
    [("a", Node.file true), ("locked", Node.file false),
      ("sub", Node.dir [("b", Node.file true)] true)] true
    (by decide) (by decide)

/-- Platform::GetFilesByType from platform.cpp, over the listed entries of
a directory (the dot-star listing of a directory is its raw entry list;
see getFilesByRegExp_dotstar): entries whose type query fails are
skipped, and an entry is kept with its type when the type intersects the
bitmask. -/
def GetFilesByType (es : List (String × Node)) (typeMask : Nat) :
    List (String × EFileType) :=
  es.filterMap fun e =>
    match fileTypeOf e.2 with
    | none => none
    | some ft => if typeMask &&& ft.mask ≠ 0 then some (e.1, ft) else none

theorem getFilesByRegExp_dotstar (listing : List String) :
    GetFilesByRegExp listing (".*") = listing := by
  unfold GetFilesByRegExp
  rw [List.filter_eq_self]
  intro name _
  have hp : parsePattern (".*") = some ([RTok.star RAtom.anyChar], false) := by
    rw [parsePattern]
    rw [show splitAnchor (".*").data = ('.' :: '*' :: [], false) from by
      rw [splitAnchor]
      rfl]
    rw [parseAtoms.eq_def]
    simp only [if_neg (by decide : ¬('.' = '\\')), if_pos rfl]
    rw [show starSplit ['*'] = (true, []) from by rw [starSplit]; rfl]
    rw [show parseAtoms ([] : List Char) = some [] from by rw [parseAtoms]]
    rfl
  rw [regexSearch, hp]
  have hml : matchLead [RTok.star RAtom.anyChar] name.data = true := by
    cases hd : name.data with
    | nil => rfl
    | cons x xs =>
      rw [matchLead]
      simp [starSuffixes, matchLead, matchAtom]
  exact List.any_eq_true.mpr
    ⟨name.data, (List.mem_tails name.data name.data).mpr (List.suffix_refl _), hml⟩

theorem fileTypeOf_regular_iff (c : Node) :
    fileTypeOf c = some .FILE_TYPE_REGULAR ↔ ∃ del, c = Node.file del := by
  cases c <;> simp [fileTypeOf]

theorem regular_mask_filter (ft : EFileType) :
    (EFileType.mask .FILE_TYPE_REGULAR &&& ft.mask ≠ 0) ↔
      ft = .FILE_TYPE_REGULAR := by
  cases ft <;> decide

theorem mem_getFilesByType_regular (es : List (String × Node)) (name : String)
    (ft : EFileType) :
    (name, ft) ∈ GetFilesByType es (EFileType.mask .FILE_TYPE_REGULAR) ↔
      ft = .FILE_TYPE_REGULAR ∧ ∃ del, (name, Node.file del) ∈ es := by
  unfold GetFilesByType
  rw [List.mem_filterMap]
  constructor
  · rintro ⟨e, he, heq⟩
    obtain ⟨ename, ec⟩ := e
    cases hft : fileTypeOf ec with
    | none =>
      rw [hft] at heq
      exact Option.noConfusion heq
    | some ft2 =>
      rw [hft] at heq
      replace heq :
          (if EFileType.mask .FILE_TYPE_REGULAR &&& ft2.mask ≠ 0
            then some (ename, ft2) else none) = some (name, ft) := heq
      by_cases hm : (EFileType.mask .FILE_TYPE_REGULAR &&& ft2.mask ≠ 0)
      · rw [if_pos hm] at heq
        have hpair := Option.some.inj heq
        have hn : ename = name := congrArg Prod.fst hpair
        have hf : ft2 = ft := congrArg Prod.snd hpair
        subst hn
        subst hf
        have hreg := (regular_mask_filter ft2).mp hm
        subst hreg
        obtain ⟨del, hdel⟩ := (fileTypeOf_regular_iff ec).mp hft
        subst hdel
        exact ⟨rfl, del, he⟩
      · rw [if_neg hm] at heq
        exact Option.noConfusion heq
  · rintro ⟨rfl, del, hmem⟩
    exact ⟨(name, Node.file del), hmem, rfl⟩

mutual

/-- Platform::GetFilesRecursively from platform.cpp, over the subtree the
directory path resolves to: first the names of the regular files directly
under the directory as full joined paths, then the results of recursion
into each directory-typed subentry other than the pseudo-entries,
depth-first. -/
def GetFilesRecursively (directory : String) (t : Node) : List String :=
  match t with
  | .dir es _ =>
    ((GetFilesByType es (EFileType.mask .FILE_TYPE_REGULAR)).map fun p =>
      JoinPath directory p.1) ++ filesRecEntries directory es
  | _ => []

/-- The subdirectory pass of Platform::GetFilesRecursively: the loop over
GetFilesByType(directory, FILE_TYPE_DIRECTORY) skipping the
pseudo-entries; iterating all entries and acting only on the
directory-typed ones visits the same subdirectories in the same order. -/
def filesRecEntries (directory : String) (es : List (String × Node)) : List String :=
  match es with
  | [] => []
  | (subdir, child) :: rest =>
    (match fileTypeOf child with
     | some .FILE_TYPE_DIRECTORY =>
       if subdir = "." || subdir = ".." then []
       else GetFilesRecursively (JoinPath directory subdir) child
     | _ => []) ++ filesRecEntries directory rest

end

/-- The contribution of one listed entry to the subdirectory pass. -/
def filesRecHead (directory subdir : String) (child : Node) : List String :=
  match fileTypeOf child with
  | some .FILE_TYPE_DIRECTORY =>
    if subdir = "." || subdir = ".." then []
    else GetFilesRecursively (JoinPath directory subdir) child
  | _ => []

theorem filesRecEntries_cons (d subdir : String) (child : Node)
    (rest : List (String × Node)) :
    filesRecEntries d ((subdir, child) :: rest) =
      filesRecHead d subdir child ++ filesRecEntries d rest := by
  rw [filesRecEntries.eq_def]
  rfl

/-- A full joined path that reaches a regular file in the subtree: either
a regular entry directly in the directory, or a path through a non-pseudo
directory-typed entry. -/
inductive HasRegularFile : String → Node → String → Prop where
  | here (d : String) (es : List (String × Node)) (rmOk : Bool)
      (name : String) (del : Bool) :
      (name, Node.file del) ∈ es →
      HasRegularFile d (.dir es rmOk) (JoinPath d name)
  | step (d : String) (es : List (String × Node)) (rmOk : Bool)
      (name : String) (child : Node) (p : String) :
      (name, child) ∈ es →
      fileTypeOf child = some .FILE_TYPE_DIRECTORY →
      ¬(name = ".") → ¬(name = "..") →
      HasRegularFile (JoinPath d name) child p →
      HasRegularFile d (.dir es rmOk) p

theorem getFilesRec_mem_aux :
    (∀ (d : String) (t : Node), ∀ p : String,
      p ∈ GetFilesRecursively d t ↔ HasRegularFile d t p) ∧
    (∀ (d : String) (es : List (String × Node)), ∀ p : String,
      p ∈ filesRecEntries d es ↔
        ∃ name child, (name, child) ∈ es ∧
          fileTypeOf child = some EFileType.FILE_TYPE_DIRECTORY ∧
          ¬(name = ".") ∧ ¬(name = "..") ∧
          HasRegularFile (JoinPath d name) child p) := by
  refine GetFilesRecursively.mutual_induct _ _ ?cdir ?cnondir ?cnil ?ccons
  case cdir =>
    intro d es rmOk ih p
    have heq : GetFilesRecursively d (Node.dir es rmOk) =
        ((GetFilesByType es (EFileType.mask .FILE_TYPE_REGULAR)).map fun q =>
          JoinPath d q.1) ++ filesRecEntries d es := by
      rw [GetFilesRecursively.eq_def]
    rw [heq]
    constructor
    · intro hp
      rcases List.mem_append.mp hp with hp | hp
      · obtain ⟨q, hq, hpq⟩ := List.mem_map.mp hp
        obtain ⟨qname, qft⟩ := q
        obtain ⟨hft, del, hmem⟩ := (mem_getFilesByType_regular es qname qft).mp hq
        rw [← hpq]
        exact HasRegularFile.here d es rmOk qname del hmem
      · obtain ⟨name, child, hmem, hdir, hn1, hn2, hreg⟩ := (ih p).mp hp
        exact HasRegularFile.step d es rmOk name child p hmem hdir hn1 hn2 hreg
    · intro hreg
      cases hreg with
      | here _ _ _ name del hmem =>
        exact List.mem_append_left _ (List.mem_map.mpr
          ⟨(name, .FILE_TYPE_REGULAR),
            (mem_getFilesByType_regular es name _).mpr ⟨rfl, del, hmem⟩, rfl⟩)
      | step _ _ _ name child _ hmem hdir hn1 hn2 hrec =>
        exact List.mem_append_right _
          ((ih p).mpr ⟨name, child, hmem, hdir, hn1, hn2, hrec⟩)
  case cnondir =>
    intro t d hnd p
    have heq : GetFilesRecursively d t = [] := by
      rw [GetFilesRecursively.eq_def]
      cases t with
      | dir es rmOk => exact (hnd es rmOk rfl).elim
      | file del => rfl
      | unknownFile del => rfl
      | broken => rfl
    rw [heq]
    constructor
    · intro hp
      exact absurd hp (List.not_mem_nil p)
    · intro hreg
      cases hreg with
      | here _ es2 rmOk2 name del hmem => exact (hnd es2 rmOk2 rfl).elim
      | step _ es2 rmOk2 name child _ hmem hdir hn1 hn2 hrec =>
        exact (hnd es2 rmOk2 rfl).elim
  case cnil =>
    intro d p
    have heq : filesRecEntries d [] = [] := by
      rw [filesRecEntries.eq_def]
    rw [heq]
    simp
  case ccons =>
    intro d subdir child rest ih1 ih2 p
    rw [filesRecEntries_cons]
    have hiff : p ∈ filesRecHead d subdir child ↔
        (fileTypeOf child = some EFileType.FILE_TYPE_DIRECTORY ∧
          ¬(subdir = ".") ∧ ¬(subdir = "..") ∧
          HasRegularFile (JoinPath d subdir) child p) := by
      cases hdir : fileTypeOf child with
      | none =>
        have hh : filesRecHead d subdir child = [] := by
          unfold filesRecHead
          rw [hdir]
        rw [hh]
        simp [hdir]
      | some ft =>
        cases ft with
        | FILE_TYPE_UNKNOWN =>
          have hh : filesRecHead d subdir child = [] := by
            unfold filesRecHead
            rw [hdir]
          rw [hh]
          simp [hdir]
        | FILE_TYPE_REGULAR =>
          have hh : filesRecHead d subdir child = [] := by
            unfold filesRecHead
            rw [hdir]
          rw [hh]
          simp [hdir]
        | FILE_TYPE_DIRECTORY =>
          by_cases h1 : subdir = "."
          · have hh : filesRecHead d subdir child = [] := by
              unfold filesRecHead
              rw [hdir]
              show (if subdir = "." || subdir = ".." then ([] : List String)
                else GetFilesRecursively (JoinPath d subdir) child) = []
              rw [if_pos (by simp [h1])]
            rw [hh]
            simp [h1]
          · by_cases h2 : subdir = ".."
            · have hh : filesRecHead d subdir child = [] := by
                unfold filesRecHead
                rw [hdir]
                show (if subdir = "." || subdir = ".." then ([] : List String)
                  else GetFilesRecursively (JoinPath d subdir) child) = []
                rw [if_pos (by simp [h2])]
              rw [hh]
              simp [h2]
            · have hh : filesRecHead d subdir child =
                  GetFilesRecursively (JoinPath d subdir) child := by
                unfold filesRecHead
                rw [hdir]
                show (if subdir = "." || subdir = ".." then ([] : List String)
                  else GetFilesRecursively (JoinPath d subdir) child) = _
                rw [if_neg (by simp [h1, h2])]
              rw [hh, ih1 p]
              simp [hdir, h1, h2]
    rw [List.mem_append, hiff, ih2 p]
    constructor
    · rintro (⟨hdir, h1, h2, hreg⟩ | ⟨name, c, hmem, hdir, hn1, hn2, hreg⟩)
      · exact ⟨subdir, child, List.mem_cons_self _ _, hdir, h1, h2, hreg⟩
      · exact ⟨name, c, List.mem_cons_of_mem _ hmem, hdir, hn1, hn2, hreg⟩
    · rintro ⟨name, c, hmem, hdir, hn1, hn2, hreg⟩
      rcases List.mem_cons.mp hmem with heqp | hmem2
      · injection heqp with hname hc
        subst hname
        subst hc
        exact Or.inl ⟨hdir, hn1, hn2, hreg⟩
      · exact Or.inr ⟨name, c, hmem2, hdir, hn1, hn2, hreg⟩

/-- Claim C2: GetFilesRecursively produces exactly the joined full paths
of the regular files reachable anywhere under the root — recursion
descends only into directory-typed entries other than the pseudo-entries
dot and dot-dot — and so no directory path; on the tree
root/(a.txt, sub/(b.txt)) it produces exactly root/a.txt then
root/sub/b.txt, the files of a directory before those of its
subdirectories. -/
theorem getFilesRecursively_exactly_regular_files :
    (∀ (d : String) (t : Node) (p : String),
      p ∈ GetFilesRecursively d t ↔ HasRegularFile d t p) ∧
    GetFilesRecursively "root"
        (Node.dir [("a.txt", Node.file true),
          ("sub", Node.dir [("b.txt", Node.file true)] true)] true) =
      ["root/a.txt", "root/sub/b.txt"] := by
  constructor
  · exact getFilesRec_mem_aux.1
  · have hnil : ∀ d : String, filesRecEntries d ([] : List (String × Node)) = [] := by
      intro d
      rw [filesRecEntries.eq_def]
    have hinner : GetFilesRecursively "root/sub"
        (Node.dir [("b.txt", Node.file true)] true) = ["root/sub/b.txt"] := by
      rw [GetFilesRecursively.eq_def]
      dsimp only
      rw [show GetFilesByType [("b.txt", Node.file true)]
          (EFileType.mask .FILE_TYPE_REGULAR) =
          [("b.txt", EFileType.FILE_TYPE_REGULAR)] from rfl]
      rw [filesRecEntries_cons, hnil]
      rw [show filesRecHead "root/sub" "b.txt" (Node.file true) = [] from rfl]
      simp only [List.map_cons, List.map_nil, List.append_nil, List.nil_append]
      rw [show JoinPath "root/sub" "b.txt" = "root/sub/b.txt" from by decide]
    have hhS : filesRecHead "root" "sub"
        (Node.dir [("b.txt", Node.file true)] true) =
        GetFilesRecursively (JoinPath "root" "sub")
          (Node.dir [("b.txt", Node.file true)] true) := by
      unfold filesRecHead
      show (if ("sub" = "." || "sub" = "..") then ([] : List String)
        else GetFilesRecursively (JoinPath "root" "sub")
          (Node.dir [("b.txt", Node.file true)] true)) = _
      rw [if_neg (by decide)]
    rw [GetFilesRecursively.eq_def]
    dsimp only
    rw [show GetFilesByType [("a.txt", Node.file true),
        ("sub", Node.dir [("b.txt", Node.file true)] true)]
        (EFileType.mask .FILE_TYPE_REGULAR) =
        [("a.txt", EFileType.FILE_TYPE_REGULAR)] from rfl]
    rw [filesRecEntries_cons, filesRecEntries_cons, hnil]
    rw [show filesRecHead "root" "a.txt" (Node.file true) = [] from rfl]
    rw [hhS, show JoinPath "root" "sub" = "root/sub" from by decide, hinner]
    simp only [List.map_cons, List.map_nil, List.append_nil, List.nil_append]
    rw [show JoinPath "root" "a.txt" = "root/a.txt" from by decide]
    rfl
